import Mathlib

/-!
Verification of the `sanity` error-aggregation core (`guard.go`,
`group_helpers.go`).

The embedding models Go error values as an inductive type `Err` covering the
shapes this package stores and produces: external category sentinels
(`errors.New` values, identified by a numeric id), failure records with and
without an `Unwrap() error` chain, the package's own `ErrClamped` sentinel and
its `ErrorsClampedError` notice.  The bounded accumulator `Guard` is embedded
as a structure over these values; mutating Go methods become state-passing
functions.  `nil error` is `Option.none`; a Go `func() error` thunk is
`Unit → Option Err`; a nil thunk is `Option.none` at the thunk position.

Locking (`sync.Locker`) serializes access but has no value-level effect in a
sequential semantics; it is kept as the `threadSafe : Bool` configuration flag
(`mu == nil` in Go corresponds to `threadSafe = false`).
-/

namespace Sanity

/-- Go error values relevant to this package: `clampedSentinel` is the
package-level `ErrClamped = errors.New("sanity:errors_clamped")`;
`sentinel id` is any other distinct `errors.New` category sentinel;
`leaf` is a failure record with no `Unwrap`; `wrap tag inner` is a failure
record whose `Unwrap() error` returns `inner`; `clamped kept dropped` is
`ErrorsClampedError{Kept, Dropped}`. -/
inductive Err where
  | clampedSentinel : Err
  | sentinel (id : Nat) : Err
  | leaf (tag : Nat) : Err
  | wrap (tag : Nat) (inner : Err) : Err
  | clamped (kept dropped : Nat) : Err
deriving DecidableEq, Repr

/-- One step of Go `Unwrap()`: records built with `wrap` unwrap to their inner
error; `ErrorsClampedError.Unwrap()` returns `ErrClamped` (guard.go line 198);
sentinels and plain leaves have no `Unwrap`. -/
def Err.unwrapStep : Err → Option Err
  | .wrap _ inner => some inner
  | .clamped _ _ => some .clampedSentinel
  | _ => none

/-- The full unwrap chain of an error, starting with the error itself, as
walked by the loop inside Go `errors.Is`. -/
def Err.chain : Err → List Err
  | .wrap tag inner => .wrap tag inner :: inner.chain
  | .clamped k d => [.clamped k d, .clampedSentinel]
  | e => [e]

/-- Go `errors.Is(e, target)` specialized to this package's record values:
none of them implement an `Is` method or `Unwrap() []error`, so the loop
compares for identity and follows single `Unwrap` steps. -/
def errorsIs : Err → Err → Bool
  | .wrap tag inner, t => (Err.wrap tag inner == t) || errorsIs inner t
  | .clamped k d, t => (Err.clamped k d == t) || (Err.clampedSentinel == t)
  | e, t => e == t

/-- The aggregate error type `multiError` (guard.go lines 287-290): four
inline slots plus an overflow list. -/
structure MultiError where
  e0 : Option Err
  e1 : Option Err
  e2 : Option Err
  e3 : Option Err
  more : List Err
deriving DecidableEq, Repr

/-- The member sequence of a `multiError` in visit order: non-nil inline slots
`e0..e3` first, then `more` (the order used by `Iter`, `Is`, `As`, `Unwrap`). -/
def MultiError.members (m : MultiError) : List Err :=
  m.e0.toList ++ m.e1.toList ++ m.e2.toList ++ m.e3.toList ++ m.more

/-- The list of members actually visited when a visitor `fn` is applied in
order with early exit: visiting stops right after the first member on which
`fn` returns `false`.  This is the trace of `multiError.Iter` (guard.go
lines 295-313), whose nil slots are skipped without calling `fn`. -/
def iterVisited : List Err → (Err → Bool) → List Err
  | [], _ => []
  | e :: es, fn => if fn e then e :: iterVisited es fn else [e]

/-- Embeds `multiError.Iter` as a trace: the members on which the callback runs. -/
def MultiError.Iter (m : MultiError) (fn : Err → Bool) : List Err :=
  iterVisited m.members fn

/-- Embeds `multiError.Is` (guard.go lines 316-338): `false` on a nil target,
otherwise `errors.Is` against each non-nil slot and each element of `more`. -/
def MultiError.Is (m : MultiError) (target : Option Err) : Bool :=
  match target with
  | none => false
  | some t =>
    (match m.e0 with | some e => errorsIs e t | none => false) ||
    (match m.e1 with | some e => errorsIs e t | none => false) ||
    (match m.e2 with | some e => errorsIs e t | none => false) ||
    (match m.e3 with | some e => errorsIs e t | none => false) ||
    m.more.any (fun e => errorsIs e t)

/-- The accumulator `Guard` (guard.go lines 9-24).  Counters and slots as in
the Go struct; `mu : sync.Locker` is represented by the `threadSafe` flag
(`nil` locker = `false`). -/
structure Guard where
  e0 : Option Err
  e1 : Option Err
  e2 : Option Err
  e3 : Option Err
  more : List Err
  n : Nat
  max : Nat
  compactRatio : Int
  threadSafe : Bool
  checks : Nat
  failures : Nat
  dropped : Nat
deriving DecidableEq, Repr

/-- Construction options (guard.go lines 27-47).  `WithMaxErrors` clamps a
negative argument to 0. -/
inductive GuardOption where
  | withMaxErrors (n : Int) : GuardOption
  | withCompactRatio (r : Int) : GuardOption
  | withThreadSafe : GuardOption

def applyOption (g : Guard) : GuardOption → Guard
  | GuardOption.withMaxErrors n => { g with max := (if n < 0 then 0 else n).toNat }
  | GuardOption.withCompactRatio r => { g with compactRatio := r }
  | GuardOption.withThreadSafe => { g with threadSafe := true }

/-- Embeds `NewGuard` (guard.go lines 50-56): zero state with `max = 1`, then the
options applied in order. -/
def NewGuard (opts : List GuardOption) : Guard :=
  List.foldl applyOption
    { e0 := none, e1 := none, e2 := none, e3 := none, more := [], n := 0,
      max := 1, compactRatio := 0, threadSafe := false,
      checks := 0, failures := 0, dropped := 0 } opts

/-- Embeds `MGStats` (guard.go lines 71-76). -/
structure MGStats where
  Checks : Nat
  Failures : Nat
  Kept : Nat
  Dropped : Nat
deriving DecidableEq, Repr

/-- Embeds `Guard.Stats` (guard.go lines 78-82). -/
def Guard.Stats (g : Guard) : MGStats :=
  { Checks := g.checks, Failures := g.failures, Kept := g.n, Dropped := g.dropped }

/-- Embeds `Guard.Reset` (guard.go lines 85-92): clears slots, overflow and all four
counters; configuration fields are untouched. -/
def Guard.Reset (g : Guard) : Guard :=
  { g with e0 := none, e1 := none, e2 := none, e3 := none, more := [],
           n := 0, checks := 0, failures := 0, dropped := 0 }

/-- Embeds `Guard.Ok` (guard.go lines 95-100). -/
def Guard.Ok (g : Guard) : Bool := g.n == 0

/-- Embeds `Guard.Add` (guard.go lines 103-128): nil is a no-op; otherwise count the
failure, drop when the cap is reached, else store in the slot selected by the
switch on `n` and bump `n`. -/
def Guard.Add (g : Guard) (err : Option Err) : Guard :=
  match err with
  | none => g
  | some e =>
    let g1 : Guard := { g with failures := g.failures + 1 }
    if g1.max > 0 ∧ g1.n ≥ g1.max then
      { g1 with dropped := g1.dropped + 1 }
    else
      let g2 : Guard :=
        match g1.n with
        | 0 => { g1 with e0 := some e }
        | 1 => { g1 with e1 := some e }
        | 2 => { g1 with e2 := some e }
        | 3 => { g1 with e3 := some e }
        | _ => { g1 with more := g1.more ++ [e] }
      { g2 with n := g2.n + 1 }

/-- Embeds `Guard.Check` (guard.go lines 131-136): alias of `Add` behind a nil test. -/
def Guard.Check (g : Guard) (err : Option Err) : Guard :=
  match err with
  | none => g
  | some e => g.Add (some e)

/-- Embeds `Guard.CheckLazy` (guard.go lines 142-157).  Besides the new state, the
returned Bool records whether the thunk was evaluated (exactly when `checks`
is incremented in the Go code). -/
def Guard.CheckLazy (g : Guard) (makeErr : Option (Unit → Option Err)) :
    Guard × Bool :=
  match makeErr with
  | none => (g, false)
  | some f =>
    if g.max > 0 ∧ g.n ≥ g.max then (g, false)
    else
      let g1 : Guard := { g with checks := g.checks + 1 }
      match f () with
      | some e => (g1.Add (some e), true)
      | none => (g1, true)

/-- Embeds `Guard.AddCheck` (guard.go lines 160-175): same structure as CheckLazy. -/
def Guard.AddCheck (g : Guard) (f : Option (Unit → Option Err)) :
    Guard × Bool :=
  match f with
  | none => (g, false)
  | some f =>
    if g.max > 0 ∧ g.n ≥ g.max then (g, false)
    else
      let g1 : Guard := { g with checks := g.checks + 1 }
      match f () with
      | some e => (g1.Add (some e), true)
      | none => (g1, true)

/-- Embeds `Guard.Run` (guard.go lines 178-188): before each thunk the cap test is
re-evaluated and, once reached, the remaining thunks are abandoned.  The
returned list flags, per thunk, whether it was evaluated. -/
def Guard.Run (g : Guard) (cs : List (Option (Unit → Option Err))) :
    Guard × List Bool :=
  match cs with
  | [] => (g, [])
  | f :: fs =>
    if g.max > 0 ∧ g.n ≥ g.max then
      (g, (f :: fs).map (fun _ => false))
    else
      let p := g.AddCheck f
      let q := Guard.Run p.1 fs
      (q.1, p.2 :: q.2)

/-- Embeds `snapshotErrorsLocked` (guard.go lines 236-261).  The Go function either
aliases `gd.more` or copies its elements into a fresh slice (the `needCopy`
test over thread-safety, pending drops and slice over-allocation); both
branches return the same error values, and slice capacity is a memory-layout
notion outside value semantics, so the embedding returns the fields. -/
def Guard.snapshotErrorsLocked (g : Guard) :
    Option Err × Option Err × Option Err × Option Err × List Err × Nat :=
  (g.e0, g.e1, g.e2, g.e3, g.more, g.dropped)

/-- Embeds `countNonNil4` (guard.go lines 263-277). -/
def countNonNil4 (a b c d : Option Err) : Nat :=
  (if a.isSome then 1 else 0) + (if b.isSome then 1 else 0) +
  (if c.isSome then 1 else 0) + (if d.isSome then 1 else 0)

/-- The possible results of `Guard.Err`: Go `nil`, a single bare record, or a
`multiError` aggregate. -/
inductive ErrResult where
  | ok : ErrResult
  | single (e : Err) : ErrResult
  | multi (m : MultiError) : ErrResult
deriving DecidableEq, Repr

/-- Embeds `Guard.Err` (guard.go lines 205-232), state-passing: the returned `Guard`
is the receiver after the call (the method only reads fields; when it appends
the clamped notice, `snapshotErrorsLocked` has produced a copy because
`needCopy` is true whenever `dropped > 0`). -/
def Guard.Err (g : Guard) : Guard × ErrResult :=
  match g.n with
  | 0 => (g, ErrResult.ok)
  | 1 =>
    match g.e0 with
    | none => (g, ErrResult.ok)
    | some e0 =>
      if g.dropped = 0 then (g, ErrResult.single e0)
      else
        (g, ErrResult.multi
          { e0 := some e0, e1 := none, e2 := none, e3 := none,
            more := [Err.clamped 1 g.dropped] })
  | _ =>
    match g.snapshotErrorsLocked with
    | (e0, e1, e2, e3, more, dropped) =>
      if dropped > 0 then
        (g, ErrResult.multi
          { e0 := e0, e1 := e1, e2 := e2, e3 := e3,
            more := more ++ [Err.clamped (countNonNil4 e0 e1 e2 e3 + more.length) dropped] })
      else
        (g, ErrResult.multi { e0 := e0, e1 := e1, e2 := e2, e3 := e3, more := more })

/-- The member sequence of an `Err` result (empty for nil, the bare record
for the single case, the `Iter` order for an aggregate). -/
def ErrResult.members : ErrResult → List Err
  | ErrResult.ok => []
  | ErrResult.single e => [e]
  | ErrResult.multi m => m.members

/-- Whether an `Err` result is the composite aggregate (a `multiError`
value), as opposed to Go `nil` or a bare single record. -/
def ErrResult.isMulti : ErrResult → Bool
  | ErrResult.multi _ => true
  | _ => false

/-- The kept records currently stored by a guard, in insertion order. -/
def Guard.keptList (g : Guard) : List Sanity.Err :=
  g.e0.toList ++ g.e1.toList ++ g.e2.toList ++ g.e3.toList ++ g.more

/-- The Go error universe of this package, as handed to the group helpers:
either a plain record value or the `multiError` aggregate. -/
inductive GoError where
  | record (e : Err) : GoError
  | group (m : MultiError) : GoError
deriving DecidableEq, Repr

/-- The dynamic probe `err.(interface{ Len() int })` performed by `GroupLen`:
no error type this package defines or produces declares a `Len() int` method
(neither the record types nor `multiError`), so the assertion fails on every
value of the package's error universe. -/
def lenMethodOf : GoError → Option Nat
  | GoError.record _ => none
  | GoError.group _ => none

/-- Embeds `GroupLen` (group_helpers.go lines 22-28): a type assertion on a nil
interface also fails, so `none` (Go nil) yields `(0, false)`. -/
def GroupLen (err : Option GoError) : Nat × Bool :=
  match err with
  | none => (0, false)
  | some e =>
    match lenMethodOf e with
    | some k => (k, true)
    | none => (0, false)

/-- View an `Err()` result as a value of the package error universe. -/
def ErrResult.toGoError : ErrResult → Option GoError
  | ErrResult.ok => none
  | ErrResult.single e => some (GoError.record e)
  | ErrResult.multi m => some (GoError.group m)

/-- Well-formed storage: the guard's slots and overflow list encode the kept
record list `ks` in insertion order (`e0..e3` hold the first four records,
`more` the rest), and `n` is its length.  This is the representation invariant
established by `NewGuard`/`Reset` and maintained by `Add`. -/
def Guard.WF (g : Guard) (ks : List Sanity.Err) : Prop :=
  g.e0 = ks[0]? ∧ g.e1 = ks[1]? ∧ g.e2 = ks[2]? ∧ g.e3 = ks[3]? ∧
  g.more = ks.drop 4 ∧ g.n = ks.length

/-- A guard with empty storage and zeroed counters (the state right after
`NewGuard` or `Reset`, for any configuration). -/
def Guard.Fresh (g : Guard) : Prop :=
  g.e0 = none ∧ g.e1 = none ∧ g.e2 = none ∧ g.e3 = none ∧ g.more = [] ∧
  g.n = 0 ∧ g.checks = 0 ∧ g.failures = 0 ∧ g.dropped = 0

/-- The counter invariant of the spec: `kept ≤ cap` and
`kept + dropped = failures` when `cap > 0`, and `dropped = 0` when `cap = 0`. -/
def Guard.Inv (g : Guard) : Prop :=
  (g.max > 0 → g.n ≤ g.max ∧ g.n + g.dropped = g.failures) ∧
  (g.max = 0 → g.dropped = 0)

/-- A sequence of `Add` calls with non-nil records, in order. -/
def addAll (g : Guard) (es : List Sanity.Err) : Guard :=
  List.foldl (fun h e => Guard.Add h (some e)) g es

/-- One public operation on a guard, with its argument. -/
inductive GuardOp where
  | add (e : Option Sanity.Err) : GuardOp
  | check (e : Option Sanity.Err) : GuardOp
  | checkLazy (f : Option (Unit → Option Sanity.Err)) : GuardOp
  | addCheck (f : Option (Unit → Option Sanity.Err)) : GuardOp
  | run (fs : List (Option (Unit → Option Sanity.Err))) : GuardOp
  | stats : GuardOp
  | ok : GuardOp
  | err : GuardOp
  | reset : GuardOp

/-- The state transition of each operation.  `Stats` and `Ok` only read
counters (guard.go lines 78-100), so they leave the state unchanged;
`Err` is taken through its state-passing embedding. -/
def Guard.applyOp (g : Guard) : GuardOp → Guard
  | GuardOp.add e => g.Add e
  | GuardOp.check e => g.Check e
  | GuardOp.checkLazy f => (g.CheckLazy f).1
  | GuardOp.addCheck f => (g.AddCheck f).1
  | GuardOp.run fs => (g.Run fs).1
  | GuardOp.stats => g
  | GuardOp.ok => g
  | GuardOp.err => (g.Err).1
  | GuardOp.reset => g.Reset

/-- Concrete guard with `maxErrors = 2`, used to instantiate theorems. -/
def exGuardCap2 : Guard := NewGuard [GuardOption.withMaxErrors 2]

/-- Three distinct failure records. -/
def exErrs3 : List Sanity.Err := [Err.sentinel 1, Err.sentinel 2, Err.sentinel 3]

/-- The guard `exGuardCap2` after adding the three records: two kept, one dropped. -/
def exGuardClamped : Guard := addAll exGuardCap2 exErrs3

/-- A default guard (`maxErrors = 1`) that already holds its one record. -/
def gAtCap : Guard := (NewGuard []).Add (some (Err.leaf 1))

/-- An unlimited guard with nothing recorded. -/
def exGuardUnlimited : Guard := NewGuard [GuardOption.withMaxErrors 0]

/-- A thunk that always fails with the given sentinel. -/
def exThunkFail (i : Nat) : Option (Unit → Option Sanity.Err) :=
  some (fun _ => some (Err.sentinel i))

/-- A concrete operation sequence. -/
def exOps : List GuardOp :=
  [GuardOp.add (some (Err.leaf 0)), GuardOp.err, GuardOp.reset]

theorem fresh_WF_nil (g : Guard) (h : g.Fresh) : g.WF [] := by
  obtain ⟨h0, h1, h2, h3, hm, hn, -⟩ := h
  exact ⟨by simp [h0], by simp [h1], by simp [h2], by simp [h3], by simp [hm], by simp [hn]⟩

theorem slots_concat_tail (ks tail : List Sanity.Err) :
    (ks[0]?).toList ++ (ks[1]?).toList ++ (ks[2]?).toList ++ (ks[3]?).toList ++
      (ks.drop 4 ++ tail) = ks ++ tail := by
  rcases ks with - | ⟨a, - | ⟨b, - | ⟨c, - | ⟨d, rest⟩⟩⟩⟩ <;> simp

theorem slots_concat (ks : List Sanity.Err) :
    (ks[0]?).toList ++ (ks[1]?).toList ++ (ks[2]?).toList ++ (ks[3]?).toList ++
      ks.drop 4 = ks := by
  have h := slots_concat_tail ks []
  simpa using h

theorem countNonNil4_slots (ks : List Sanity.Err) :
    countNonNil4 ks[0]? ks[1]? ks[2]? ks[3]? + (ks.drop 4).length = ks.length := by
  rcases ks with - | ⟨a, - | ⟨b, - | ⟨c, - | ⟨d, rest⟩⟩⟩⟩ <;>
    simp [countNonNil4]
  omega

theorem WF_keptList (g : Guard) (ks : List Sanity.Err) (h : g.WF ks) :
    g.keptList = ks := by
  obtain ⟨h0, h1, h2, h3, hm, hn⟩ := h
  unfold Guard.keptList
  rw [h0, h1, h2, h3, hm]
  exact slots_concat ks

theorem Add_drop (g : Guard) (e : Sanity.Err) (hcap : g.max > 0 ∧ g.n ≥ g.max) :
    g.Add (some e) =
      { g with failures := g.failures + 1, dropped := g.dropped + 1 } := by
  simp only [Guard.Add]
  rw [if_pos hcap]

theorem Add_append (g : Guard) (ks : List Sanity.Err) (e : Sanity.Err)
    (hwf : g.WF ks) (hcap : ¬(g.max > 0 ∧ g.n ≥ g.max)) :
    (g.Add (some e)).WF (ks ++ [e]) ∧
    (g.Add (some e)).failures = g.failures + 1 ∧
    (g.Add (some e)).dropped = g.dropped ∧
    (g.Add (some e)).checks = g.checks ∧
    (g.Add (some e)).max = g.max ∧
    (g.Add (some e)).compactRatio = g.compactRatio ∧
    (g.Add (some e)).threadSafe = g.threadSafe := by
  obtain ⟨h0, h1, h2, h3, hm, hn⟩ := hwf
  simp only [Guard.Add]
  rw [if_neg hcap]
  rcases ks with - | ⟨a, - | ⟨b, - | ⟨c, - | ⟨d, rest⟩⟩⟩⟩ <;>
    simp_all [Guard.WF, List.length_cons]

theorem addAll_cons (g : Guard) (e : Sanity.Err) (es : List Sanity.Err) :
    addAll g (e :: es) = addAll (g.Add (some e)) es := rfl

theorem addAll_unlimited (es : List Sanity.Err) :
    ∀ (g : Guard) (ks : List Sanity.Err), g.WF ks → g.max = 0 →
    (addAll g es).WF (ks ++ es) ∧
    (addAll g es).failures = g.failures + es.length ∧
    (addAll g es).dropped = g.dropped ∧
    (addAll g es).checks = g.checks ∧
    (addAll g es).max = g.max ∧
    (addAll g es).compactRatio = g.compactRatio ∧
    (addAll g es).threadSafe = g.threadSafe := by
  induction es with
  | nil =>
    intro g ks hwf hmax
    simpa [addAll] using hwf
  | cons e es ih =>
    intro g ks hwf hmax
    have hcap : ¬(g.max > 0 ∧ g.n ≥ g.max) := by omega
    obtain ⟨hwf1, hf, hd, hc, hmx, hr, ht⟩ := Add_append g ks e hwf hcap
    have h := ih (g.Add (some e)) (ks ++ [e]) hwf1 (by rw [hmx]; exact hmax)
    obtain ⟨i1, i2, i3, i4, i5, i6, i7⟩ := h
    rw [addAll_cons]
    refine ⟨by simpa using i1, ?_, ?_, ?_, ?_, ?_, ?_⟩
    · rw [i2, hf]; simp; omega
    · rw [i3, hd]
    · rw [i4, hc]
    · rw [i5, hmx]
    · rw [i6, hr]
    · rw [i7, ht]

theorem addAll_capped (es : List Sanity.Err) :
    ∀ (g : Guard) (ks : List Sanity.Err), g.WF ks → 0 < g.max → ks.length ≤ g.max →
    (addAll g es).WF (ks ++ es.take (g.max - ks.length)) ∧
    (addAll g es).failures = g.failures + es.length ∧
    (addAll g es).dropped = g.dropped + (ks.length + es.length - g.max) ∧
    (addAll g es).checks = g.checks ∧
    (addAll g es).max = g.max ∧
    (addAll g es).compactRatio = g.compactRatio ∧
    (addAll g es).threadSafe = g.threadSafe := by
  induction es with
  | nil =>
    intro g ks hwf hpos hlen
    simpa [addAll] using ⟨hwf, by omega⟩
  | cons e es ih =>
    intro g ks hwf hpos hlen
    have hn : g.n = ks.length := hwf.2.2.2.2.2
    by_cases hfull : ks.length ≥ g.max
    · -- at capacity: the record is dropped
      have heq : ks.length = g.max := le_antisymm hlen hfull
      have hcap : g.max > 0 ∧ g.n ≥ g.max := ⟨hpos, by omega⟩
      rw [addAll_cons, Add_drop g e hcap]
      have hwf2 : Guard.WF
          { g with failures := g.failures + 1, dropped := g.dropped + 1 } ks := hwf
      have h := ih _ ks hwf2 hpos hlen
      obtain ⟨i1, i2, i3, i4, i5, i6, i7⟩ := h
      have hz : g.max - ks.length = 0 := by omega
      refine ⟨?_, ?_, ?_, ?_, ?_, ?_, ?_⟩
      · simpa [hz] using i1
      · rw [i2]; simp; omega
      · rw [i3]; simp; omega
      · exact i4
      · exact i5
      · exact i6
      · exact i7
    · -- below capacity: the record is appended
      have hcap : ¬(g.max > 0 ∧ g.n ≥ g.max) := by omega
      obtain ⟨hwf1, hf, hd, hc, hmx, hr, ht⟩ := Add_append g ks e hwf hcap
      rw [addAll_cons]
      have h := ih (g.Add (some e)) (ks ++ [e]) hwf1 (by omega)
        (by rw [hmx]; simp; omega)
      obtain ⟨i1, i2, i3, i4, i5, i6, i7⟩ := h
      have hsucc : g.max - ks.length = (g.max - (ks.length + 1)) + 1 := by omega
      refine ⟨?_, ?_, ?_, ?_, ?_, ?_, ?_⟩
      · rw [hsucc, List.take_succ_cons]
        have : ks ++ e :: List.take (g.max - (ks.length + 1)) es =
            (ks ++ [e]) ++ List.take (g.max - (ks.length + 1)) es := by simp
        rw [this]
        have hrw : (g.Add (some e)).max = g.max := hmx
        simpa [hrw] using i1
      · rw [i2, hf]; simp; omega
      · rw [i3, hd, hmx]; simp; omega
      · rw [i4, hc]
      · rw [i5, hmx]
      · rw [i6, hr]
      · rw [i7, ht]

theorem Err_state_id (g : Guard) : (g.Err).1 = g := by
  unfold Guard.Err
  repeat' split
  all_goals rfl

theorem Add_fields (g : Guard) (e : Sanity.Err)
    (hcap : ¬(g.max > 0 ∧ g.n ≥ g.max)) :
    (g.Add (some e)).n = g.n + 1 ∧ (g.Add (some e)).failures = g.failures + 1 ∧
    (g.Add (some e)).dropped = g.dropped ∧ (g.Add (some e)).checks = g.checks ∧
    (g.Add (some e)).max = g.max := by
  simp only [Guard.Add]
  rw [if_neg hcap]
  rcases g with ⟨e0, e1, e2, e3, more, n, mx, cr, ts, ck, fl, dp⟩
  rcases n with - | n
  · simp
  rcases n with - | n
  · simp
  rcases n with - | n
  · simp
  rcases n with - | n
  · simp
  simp

theorem Add_Inv (g : Guard) (err : Option Sanity.Err) (h : g.Inv) :
    (g.Add err).Inv := by
  rcases err with - | e
  · exact h
  · by_cases hcap : g.max > 0 ∧ g.n ≥ g.max
    · rw [Add_drop g e hcap]
      simp only [Guard.Inv] at h ⊢
      omega
    · obtain ⟨h1, h2, h3, h4, h5⟩ := Add_fields g e hcap
      simp only [Guard.Inv] at h ⊢
      rw [h1, h2, h3, h5]
      omega

theorem CheckLazy_Inv (g : Guard) (f : Option (Unit → Option Sanity.Err))
    (h : g.Inv) : (g.CheckLazy f).1.Inv := by
  rcases f with - | f
  · exact h
  · simp only [Guard.CheckLazy]
    by_cases hcap : g.max > 0 ∧ g.n ≥ g.max
    · rw [if_pos hcap]; exact h
    · rw [if_neg hcap]
      have hstep : Guard.Inv { g with checks := g.checks + 1 } := h
      rcases f () with - | e
      · exact hstep
      · exact Add_Inv _ _ hstep

theorem AddCheck_Inv (g : Guard) (f : Option (Unit → Option Sanity.Err))
    (h : g.Inv) : (g.AddCheck f).1.Inv := by
  rcases f with - | f
  · exact h
  · simp only [Guard.AddCheck]
    by_cases hcap : g.max > 0 ∧ g.n ≥ g.max
    · rw [if_pos hcap]; exact h
    · rw [if_neg hcap]
      have hstep : Guard.Inv { g with checks := g.checks + 1 } := h
      rcases f () with - | e
      · exact hstep
      · exact Add_Inv _ _ hstep

theorem Run_Inv (cs : List (Option (Unit → Option Sanity.Err))) :
    ∀ g : Guard, g.Inv → (g.Run cs).1.Inv := by
  induction cs with
  | nil => intro g h; exact h
  | cons f fs ih =>
    intro g h
    simp only [Guard.Run]
    by_cases hcap : g.max > 0 ∧ g.n ≥ g.max
    · rw [if_pos hcap]; exact h
    · rw [if_neg hcap]
      exact ih _ (AddCheck_Inv g f h)

theorem Reset_Inv (g : Guard) : (g.Reset).Inv := by
  simp [Guard.Reset, Guard.Inv]

theorem applyOp_Inv (g : Guard) (op : GuardOp) (h : g.Inv) :
    (g.applyOp op).Inv := by
  cases op with
  | add e => exact Add_Inv g e h
  | check e =>
    rcases e with - | e
    · exact h
    · exact Add_Inv g (some e) h
  | checkLazy f => exact CheckLazy_Inv g f h
  | addCheck f => exact AddCheck_Inv g f h
  | run fs => exact Run_Inv fs g h
  | stats => exact h
  | ok => exact h
  | err => rw [Guard.applyOp, Err_state_id]; exact h
  | reset => exact Reset_Inv g

theorem foldOps_Inv (ops : List GuardOp) :
    ∀ g : Guard, g.Inv → (List.foldl Guard.applyOp g ops).Inv := by
  induction ops with
  | nil => intro g h; exact h
  | cons op ops ih => intro g h; exact ih _ (applyOp_Inv g op h)

theorem applyOption_counters (g : Guard) (o : GuardOption) :
    (applyOption g o).n = g.n ∧ (applyOption g o).dropped = g.dropped ∧
    (applyOption g o).failures = g.failures := by
  cases o <;> simp [applyOption]

theorem NewGuard_Inv (opts : List GuardOption) : (NewGuard opts).Inv := by
  unfold NewGuard
  suffices h : ∀ (os : List GuardOption) (g : Guard), g.n = 0 → g.dropped = 0 →
      g.failures = 0 → (List.foldl applyOption g os).Inv by
    exact h opts _ rfl rfl rfl
  intro os
  induction os with
  | nil =>
    intro g h1 h2 h3
    simp only [List.foldl_nil, Guard.Inv]
    omega
  | cons o os ih =>
    intro g h1 h2 h3
    obtain ⟨c1, c2, c3⟩ := applyOption_counters g o
    exact ih _ (by omega) (by omega) (by omega)

theorem Add_checks (g : Guard) (err : Option Sanity.Err) :
    (g.Add err).checks = g.checks := by
  rcases err with - | e
  · rfl
  · by_cases hcap : g.max > 0 ∧ g.n ≥ g.max
    · rw [Add_drop g e hcap]
    · exact (Add_fields g e hcap).2.2.2.1

theorem errorsIs_iff_chain (e t : Sanity.Err) :
    errorsIs e t = true ↔ t ∈ e.chain := by
  induction e with
  | clampedSentinel =>
    show (Err.clampedSentinel == t) = true ↔ t ∈ [Err.clampedSentinel]
    rw [beq_iff_eq]
    simp [eq_comm]
  | sentinel id =>
    show (Err.sentinel id == t) = true ↔ t ∈ [Err.sentinel id]
    rw [beq_iff_eq]
    simp [eq_comm]
  | leaf tag =>
    show (Err.leaf tag == t) = true ↔ t ∈ [Err.leaf tag]
    rw [beq_iff_eq]
    simp [eq_comm]
  | wrap tag inner ih =>
    show ((Err.wrap tag inner == t) || errorsIs inner t) = true ↔
      t ∈ Err.wrap tag inner :: inner.chain
    rw [Bool.or_eq_true, beq_iff_eq]
    simp [ih, eq_comm]
  | clamped k d =>
    show ((Err.clamped k d == t) || (Err.clampedSentinel == t)) = true ↔
      t ∈ [Err.clamped k d, Err.clampedSentinel]
    rw [Bool.or_eq_true, beq_iff_eq, beq_iff_eq]
    simp [eq_comm]

/-- C1: starting from a freshly constructed (or reset) guard, a sequence of
`Add` calls with non-nil records counts every record in `failures`; with
`cap > 0` the guard keeps `min N cap` records — exactly the first `cap`
records in arrival order — and drops the remaining `N - cap`; with `cap = 0`
all `N` records are kept in arrival order and nothing is dropped. -/
theorem add_sequence_cap_semantics (g0 : Guard) (es : List Sanity.Err)
    (h : g0.Fresh) :
    (addAll g0 es).failures = es.length ∧
    (0 < g0.max →
      (addAll g0 es).n = min es.length g0.max ∧
      (addAll g0 es).dropped = es.length - g0.max ∧
      (addAll g0 es).keptList = es.take g0.max) ∧
    (g0.max = 0 →
      (addAll g0 es).n = es.length ∧
      (addAll g0 es).dropped = 0 ∧
      (addAll g0 es).keptList = es) := by
  have hwf := fresh_WF_nil g0 h
  obtain ⟨-, -, -, -, -, -, hck, hfl, hdp⟩ := h
  refine ⟨?_, ?_, ?_⟩
  · by_cases hmax : 0 < g0.max
    · have := (addAll_capped es g0 [] hwf hmax (by simp)).2.1
      omega
    · have := (addAll_unlimited es g0 [] hwf (by omega)).2.1
      omega
  · intro hmax
    obtain ⟨w1, w2, w3, -⟩ := addAll_capped es g0 [] hwf hmax (by simp)
    have hkl := WF_keptList _ _ w1
    have hlen := w1.2.2.2.2.2
    simp only [List.nil_append, List.length_nil, Nat.sub_zero] at hkl hlen w3
    rw [List.length_take] at hlen
    refine ⟨by omega, by omega, hkl⟩
  · intro hmax
    obtain ⟨w1, w2, w3, -⟩ := addAll_unlimited es g0 [] hwf hmax
    have hkl := WF_keptList _ _ w1
    have hlen := w1.2.2.2.2.2
    simp only [List.nil_append] at hkl hlen
    exact ⟨by omega, by omega, hkl⟩

theorem add_sequence_cap_semantics_witness :
    (addAll exGuardCap2 exErrs3).failures = 3 ∧
    (addAll exGuardCap2 exErrs3).n = 2 ∧
    (addAll exGuardCap2 exErrs3).dropped = 1 ∧
    (addAll exGuardCap2 exErrs3).keptList = [Err.sentinel 1, Err.sentinel 2] := by
  obtain ⟨h1, h2, -⟩ := add_sequence_cap_semantics exGuardCap2 exErrs3
    ⟨rfl, rfl, rfl, rfl, rfl, rfl, rfl, rfl, rfl⟩
  obtain ⟨h3, h4, h5⟩ := h2 (by decide)
  refine ⟨h1, ?_, ?_, ?_⟩
  · rw [h3]; rfl
  · rw [h4]; rfl
  · rw [h5]; rfl

theorem Err_snd_ge2 (g : Guard) (h : 2 ≤ g.n) :
    (g.Err).2 =
      if g.dropped > 0 then
        ErrResult.multi
          { e0 := g.e0, e1 := g.e1, e2 := g.e2, e3 := g.e3,
            more := g.more ++
              [Err.clamped (countNonNil4 g.e0 g.e1 g.e2 g.e3 + g.more.length) g.dropped] }
      else
        ErrResult.multi { e0 := g.e0, e1 := g.e1, e2 := g.e2, e3 := g.e3, more := g.more } := by
  obtain ⟨k, hk⟩ : ∃ k, g.n = k + 2 := ⟨g.n - 2, by omega⟩
  unfold Guard.Err
  rw [hk]
  by_cases hd : g.dropped > 0 <;> simp [Guard.snapshotErrorsLocked, hd]

/-- C2: under the storage representation invariant, `Err` materializes: Go
`nil` when nothing is kept; the bare record itself when one record is kept
and nothing was dropped; the composite `[record, ClampedNotice(1, dropped)]`
when one record is kept and drops occurred; and for two or more kept records
a composite of all kept records in insertion order, with
`ClampedNotice(kept, dropped)` appended as final member iff `dropped > 0`. -/
theorem err_materialization_shape (g : Guard) (ks : List Sanity.Err)
    (hwf : g.WF ks) :
    (ks = [] → (g.Err).2 = ErrResult.ok) ∧
    (∀ k, ks = [k] → g.dropped = 0 → (g.Err).2 = ErrResult.single k) ∧
    (∀ k, ks = [k] → 0 < g.dropped →
      (g.Err).2 = ErrResult.multi
        { e0 := some k, e1 := none, e2 := none, e3 := none,
          more := [Err.clamped 1 g.dropped] }) ∧
    (2 ≤ ks.length →
      ((g.Err).2).isMulti = true ∧
      ((g.Err).2).members = ks ++
        (if 0 < g.dropped then [Err.clamped ks.length g.dropped] else [])) := by
  obtain ⟨h0, h1, h2, h3, hm, hn⟩ := hwf
  refine ⟨?_, ?_, ?_, ?_⟩
  · intro hks
    subst hks
    unfold Guard.Err
    rw [hn]
    rfl
  · intro k hks hd
    subst hks
    unfold Guard.Err
    rw [hn]
    simp [h0, hd]
  · intro k hks hd
    subst hks
    unfold Guard.Err
    rw [hn]
    simp [h0, hd.ne']
  · intro hlen
    rw [Err_snd_ge2 g (by omega)]
    by_cases hd : 0 < g.dropped
    · rw [if_pos hd, if_pos hd]
      refine ⟨rfl, ?_⟩
      show MultiError.members _ = _
      unfold MultiError.members
      simp only [h0, h1, h2, h3, hm]
      rw [countNonNil4_slots]
      exact slots_concat_tail ks [Err.clamped ks.length g.dropped]
    · rw [if_neg hd, if_neg hd]
      refine ⟨rfl, ?_⟩
      show MultiError.members _ = _
      unfold MultiError.members
      simp only [h0, h1, h2, h3, hm, List.append_nil]
      exact slots_concat ks

theorem err_materialization_shape_witness :
    ((exGuardClamped.Err).2).isMulti = true ∧
    ((exGuardClamped.Err).2).members =
      [Err.sentinel 1, Err.sentinel 2] ++
        (if 0 < exGuardClamped.dropped then
          [Err.clamped ([Err.sentinel 1, Err.sentinel 2] : List Sanity.Err).length
            exGuardClamped.dropped]
         else []) :=
  (err_materialization_shape exGuardClamped [Err.sentinel 1, Err.sentinel 2]
    ⟨rfl, rfl, rfl, rfl, rfl, rfl⟩).2.2.2 (by decide)

/-- C3: materialization is idempotent and mutation-free: `Err` leaves the
entire guard state (records and all four counters) unchanged, and calling it
again yields the identical result, clamped-notice values included — the
notice is recomputed from the same counters, never accumulated. -/
theorem err_idempotent_no_mutation (g : Guard) :
    (g.Err).1 = g ∧
    ((g.Err).1).Stats = g.Stats ∧
    (((g.Err).1).Err).2 = (g.Err).2 ∧
    ((((g.Err).1).Err).2).members = ((g.Err).2).members :=
  ⟨Err_state_id g, by rw [Err_state_id], by rw [Err_state_id], by rw [Err_state_id]⟩

/-- C4: the counter invariant — `kept ≤ cap` and `kept + dropped = failures`
when `cap > 0`, `dropped = 0` when `cap = 0` — holds for a newly constructed
guard and is preserved by every operation, hence by every operation
sequence. -/
theorem guard_invariant_preserved (opts : List GuardOption) (g : Guard)
    (ops : List GuardOp) (h : g.Inv) :
    (NewGuard opts).Inv ∧ (∀ op : GuardOp, (g.applyOp op).Inv) ∧
    (List.foldl Guard.applyOp g ops).Inv :=
  ⟨NewGuard_Inv opts, fun op => applyOp_Inv g op h, foldOps_Inv ops g h⟩

theorem guard_invariant_preserved_witness :
    Guard.Inv (NewGuard []) ∧
    ((NewGuard []).applyOp (GuardOp.add (some (Err.leaf 0)))).Inv ∧
    (List.foldl Guard.applyOp (NewGuard []) exOps).Inv := by
  have h : Guard.Inv (NewGuard []) :=
    ⟨fun _ => ⟨by decide, by decide⟩, fun hz => absurd hz (by decide)⟩
  have main := guard_invariant_preserved [] (NewGuard []) exOps h
  exact ⟨main.1, main.2.1 (GuardOp.add (some (Err.leaf 0))), main.2.2⟩

/-- C5: `Run` tests the cap before each thunk and stops without evaluating
the rest once it is reached; with `maxErrors = 2` and three failing thunks
exactly two thunks are evaluated (`checks = 2`), the third is never invoked,
two records are kept and none is dropped. -/
theorem run_cap_early_stop (g : Guard)
    (cs : List (Option (Unit → Option Sanity.Err)))
    (h1 : g.max > 0) (h2 : g.n ≥ g.max) :
    (g.Run cs).1 = g ∧ (g.Run cs).2 = cs.map (fun _ => false) ∧
    ((NewGuard [GuardOption.withMaxErrors 2]).Run
        [exThunkFail 1, exThunkFail 2, exThunkFail 3]).1.Stats =
      { Checks := 2, Failures := 2, Kept := 2, Dropped := 0 } ∧
    ((NewGuard [GuardOption.withMaxErrors 2]).Run
        [exThunkFail 1, exThunkFail 2, exThunkFail 3]).2 = [true, true, false] := by
  have hstop : g.Run cs = (g, cs.map (fun _ => false)) := by
    cases cs with
    | nil => rfl
    | cons f fs =>
      simp only [Guard.Run]
      rw [if_pos ⟨h1, h2⟩]
  exact ⟨by rw [hstop], by rw [hstop], rfl, rfl⟩

theorem run_cap_early_stop_witness :
    (gAtCap.Run [exThunkFail 9]).1 = gAtCap ∧
    (gAtCap.Run [exThunkFail 9]).2 = [exThunkFail 9].map (fun _ => false) ∧
    ((NewGuard [GuardOption.withMaxErrors 2]).Run
        [exThunkFail 1, exThunkFail 2, exThunkFail 3]).1.Stats =
      { Checks := 2, Failures := 2, Kept := 2, Dropped := 0 } ∧
    ((NewGuard [GuardOption.withMaxErrors 2]).Run
        [exThunkFail 1, exThunkFail 2, exThunkFail 3]).2 = [true, true, false] :=
  run_cap_early_stop gAtCap [exThunkFail 9] (by decide) (by decide)

/-- C6: with `cap > 0` and the cap reached, `CheckLazy` on a present thunk is
a complete no-op (state unchanged, thunk not evaluated); otherwise it
increments `checks` by exactly one, evaluates the thunk once, and passes its
result through `Add` exactly when the result is a record. -/
theorem checkLazy_skip_or_eval (g : Guard) (f : Unit → Option Sanity.Err) :
    (g.max > 0 → g.n ≥ g.max → g.CheckLazy (some f) = (g, false)) ∧
    (¬(g.max > 0 ∧ g.n ≥ g.max) →
      (g.CheckLazy (some f)).2 = true ∧
      (g.CheckLazy (some f)).1.checks = g.checks + 1 ∧
      (f () = none → (g.CheckLazy (some f)).1 = { g with checks := g.checks + 1 }) ∧
      (∀ e, f () = some e →
        (g.CheckLazy (some f)).1 =
          Guard.Add { g with checks := g.checks + 1 } (some e))) := by
  constructor
  · intro h1 h2
    simp only [Guard.CheckLazy]
    rw [if_pos ⟨h1, h2⟩]
  · intro hcap
    simp only [Guard.CheckLazy]
    rw [if_neg hcap]
    rcases hf : f () with - | e
    · exact ⟨rfl, rfl, fun _ => rfl, fun e2 he2 => by cases he2⟩
    · refine ⟨rfl, ?_, ?_, ?_⟩
      · exact Add_checks { g with checks := g.checks + 1 } (some e)
      · intro hnone
        cases hnone
      · intro e2 he2
        injection he2 with h
        subst h
        rfl

theorem checkLazy_skip_or_eval_witness :
    gAtCap.CheckLazy (exThunkFail 9) = (gAtCap, false) ∧
    (exGuardUnlimited.CheckLazy (exThunkFail 9)).2 = true ∧
    (exGuardUnlimited.CheckLazy (exThunkFail 9)).1 =
      Guard.Add { exGuardUnlimited with checks := exGuardUnlimited.checks + 1 }
        (some (Err.sentinel 9)) := by
  refine ⟨?_, ?_, ?_⟩
  · exact (checkLazy_skip_or_eval gAtCap (fun _ => some (Err.sentinel 9))).1
      (by decide) (by decide)
  · exact ((checkLazy_skip_or_eval exGuardUnlimited
      (fun _ => some (Err.sentinel 9))).2 (by decide)).1
  · exact ((checkLazy_skip_or_eval exGuardUnlimited
      (fun _ => some (Err.sentinel 9))).2 (by decide)).2.2.2 (Err.sentinel 9) rfl

/-- C7: the aggregate's category membership test succeeds on a non-nil
target exactly when some member's unwrap chain — the member itself, or
anything it transitively unwraps to — contains the target; the clamped
notice participates like any member, unwrapping to the distinct `ErrClamped`
sentinel and to no validation category sentinel. -/
theorem multiError_is_content_derived (m : MultiError) (t : Sanity.Err) :
    (m.Is (some t) = true ↔ ∃ e ∈ m.members, t ∈ e.chain) ∧
    (∀ k d, errorsIs (Err.clamped k d) Err.clampedSentinel = true) ∧
    (∀ k d i, errorsIs (Err.clamped k d) (Err.sentinel i) = false) := by
  refine ⟨?_, fun k d => rfl, fun k d i => rfl⟩
  rcases m with ⟨e0, e1, e2, e3, more⟩
  simp only [MultiError.Is, MultiError.members]
  rcases e0 with - | a <;> rcases e1 with - | b <;>
    rcases e2 with - | c <;> rcases e3 with - | d <;>
    simp [errorsIs_iff_chain, List.any_eq_true, or_assoc]

/-- C8: `Reset` restores the pristine state — empty record storage and all
four counters zero — while the configuration (cap, compaction ratio,
thread-safety) is unchanged. -/
theorem reset_pristine (g : Guard) :
    (g.Reset).Fresh ∧ (g.Reset).keptList = [] ∧
    (g.Reset).Stats = { Checks := 0, Failures := 0, Kept := 0, Dropped := 0 } ∧
    (g.Reset).max = g.max ∧ (g.Reset).compactRatio = g.compactRatio ∧
    (g.Reset).threadSafe = g.threadSafe :=
  ⟨⟨rfl, rfl, rfl, rfl, rfl, rfl, rfl, rfl, rfl⟩, rfl, rfl, rfl, rfl, rfl⟩

/-- C9: an absent input is a silent no-op: `Add` and `Check` on a nil record
and `CheckLazy`/`AddCheck` on a nil thunk change nothing, evaluate nothing
and raise nothing. -/
theorem absent_input_noop (g : Guard) :
    g.Add none = g ∧ g.Check none = g ∧
    g.CheckLazy none = (g, false) ∧ g.AddCheck none = (g, false) :=
  ⟨rfl, rfl, rfl, rfl⟩

/-- C10: `GroupLen` probes for a `Len() int` method that no error value of
this package — in particular no aggregate produced by `Err` — implements, so
it returns `(0, false)` on every such value. -/
theorem groupLen_never_reports (err : Option GoError) (g : Guard) :
    GroupLen err = (0, false) ∧
    GroupLen (ErrResult.toGoError (g.Err).2) = (0, false) := by
  constructor
  · rcases err with - | e
    · rfl
    · cases e <;> rfl
  · rcases (g.Err).2 with - | e | m <;> rfl

end Sanity
